import Mathlib

/-!
# s3uploader: encrypt-then-throttled-upload pipeline

A shallow embedding of `s3uploader.go` (and of the read loop of
`s3uploader_test.go`) together with theorems about the rate limited reader,
the encryption copy loop, the key parser and the upload pipeline.

Conventions of the embedding:

* Go `int`, `int64` and `time.Duration` are `Int`; products that can leave the
  64 bit range are wrapped with `wrap64`.
* Go `float32` is `F32`: exact IEEE-754 binary32 values with round to nearest,
  ties to even.
* A Go `error` is `Option Err` (`none` is `nil`).
* A function that can end the process (`log.Fatal`, `os.Exit`) or panic returns
  a `Ctl`; deferred calls are written out at the places where Go runs them:
  on a normal return and on a panic, never on `os.Exit`.
* Calls into the operating system, the AWS SDK, `net/http` and `openpgp` are
  fields of `Env`: the embedding fixes what the program does with their
  results, not what they return.
-/

namespace S3Uploader

/-! ## Machine numbers -/

/-- Two's complement wraparound of a 64 bit signed integer. -/
def wrap64 (x : Int) : Int := (x + 2 ^ 63) % 2 ^ 64 - 2 ^ 63

/-- IEEE-754 binary32 values. Every finite binary32 number is an integer
multiple of `2^(-149)`; `fin k` is the number `k * 2^(-149)`. Negative zero is
not represented: the program only converts integers and divides or multiplies
the results, and it never inspects the sign of a zero. -/
inductive F32 where
  | fin (k : Int)
  | inf (neg : Bool)
  | nan
  deriving DecidableEq, Repr

namespace F32

def log2Aux : Nat → Nat → Nat
  | 0, _ => 0
  | fuel + 1, n => if 2 ≤ n then log2Aux fuel (n / 2) + 1 else 0

/-- Position of the highest set bit: `2 ^ log2 n ≤ n < 2 ^ (log2 n + 1)` for `0 < n`. -/
def log2 (n : Nat) : Nat := log2Aux n n

/-- Binary exponent of the positive rational `a / b`:
the `e` with `2 ^ e ≤ a / b < 2 ^ (e + 1)`. -/
def floorLog2 (a b : Nat) : Int :=
  let e0 : Int := (log2 a : Int) - (log2 b : Int)
  if 0 ≤ e0 then (if b * 2 ^ e0.toNat ≤ a then e0 else e0 - 1)
  else (if b ≤ a * 2 ^ (-e0).toNat then e0 else e0 - 1)

/-- Nearest integer to `n / d`, ties to the even one. -/
def roundHalfEven (n d : Nat) : Nat :=
  let f := n / d
  let r := n % d
  if 2 * r < d then f else if d < 2 * r then f + 1 else if f % 2 = 0 then f else f + 1

/-- Nearest binary32 magnitude to the positive rational `a / b`, in units of
`2^(-149)` (24 bit significand, least exponent `-126`); `none` when the rounded
magnitude is beyond the largest finite binary32 number. -/
def roundMag (a b : Nat) : Option Nat :=
  let e := floorLog2 a b
  let p : Int := max e (-126) - 23
  let m : Nat :=
    if 0 ≤ p then roundHalfEven a (b * 2 ^ p.toNat) else roundHalfEven (a * 2 ^ (-p).toNat) b
  let k : Nat := m * 2 ^ (p + 149).toNat
  if 2 ^ 128 * 2 ^ 149 ≤ k then none else some k

/-- Rounding of the rational `a / b` (`0 < b`) to binary32. -/
def round (a : Int) (b : Nat) : F32 :=
  if a = 0 then fin 0
  else match roundMag a.natAbs b with
    | some k => fin (if 0 < a then (k : Int) else -(k : Int))
    | none => inf (decide (a < 0))

/-- Conversion `float32(n)` of an integer. -/
def ofInt (n : Int) : F32 := round n 1

/-- Operator `/` on `float32`; division by zero gives an infinity or a NaN, it does not panic. -/
def div : F32 → F32 → F32
  | fin a, fin b =>
      if b = 0 then (if a = 0 then nan else inf (decide (a < 0)))
      else round (if 0 < b then a else -a) b.natAbs
  | inf s, fin b => inf (s != decide (b < 0))
  | fin _, inf _ => fin 0
  | _, _ => nan

/-- Operator `*` on `float32`. -/
def mul : F32 → F32 → F32
  | fin a, fin b => round (a * b) (2 ^ 149 * 2 ^ 149)
  | inf s, fin b => if b = 0 then nan else inf (s != decide (b < 0))
  | fin a, inf s => if a = 0 then nan else inf (s != decide (a < 0))
  | inf s, inf t => inf (s != t)
  | _, _ => nan

/-- Conversion of a `float32` to `int64`: the fraction is discarded (truncation
towards zero). `none` when the value is a NaN, an infinity or out of range,
where Go leaves the result to the implementation. -/
def toInt64? : F32 → Option Int
  | fin k =>
      let t : Int := if 0 ≤ k then ((k.natAbs / 2 ^ 149 : Nat) : Int) else -((k.natAbs / 2 ^ 149 : Nat) : Int)
      if -(2 ^ 63) ≤ t ∧ t < 2 ^ 63 then some t else none
  | _ => none

/-- The real number a finite `float32` stands for. -/
def toRat? : F32 → Option ℚ
  | fin k => some ((k : ℚ) / 2 ^ 149)
  | _ => none

def isFinite : F32 → Bool
  | fin _ => true
  | _ => false

end F32

/-- Constant `time.Millisecond`, in nanoseconds. -/
def Millisecond : Int := 1000000

/-- Constant `time.Second`, in nanoseconds. -/
def Second : Int := 1000000000

/-! ## Files and errors -/

abbrev Byte := Nat

/-- Values of Go's `error` that the program tells apart: `io.EOF` and the rest. -/
inductive Err where
  | EOF
  | other (msg : String)
  deriving DecidableEq, Repr

/-- A zeroed byte slice of length `n`. -/
def zeros (n : Nat) : List Byte := List.replicate n 0

/-- Built-in `make([]byte, n)`: a zeroed slice, or a run-time panic
(`none`) when the length is negative. -/
def make (n : Int) : Option (List Byte) :=
  if n < 0 then none else some (zeros n.toNat)

/-- Built-in `copy(dst, src)`: the first `min (len dst) (len src)` bytes of
`dst` are overwritten with those of `src`. -/
def copy (dst src : List Byte) : List Byte :=
  src.take dst.length ++ dst.drop src.length

/-- An open regular file (`*os.File`): its content, the read offset, and the
offset from which the device answers reads with an I/O error, if any. -/
structure File where
  data : List Byte
  pos : Nat
  errAt : Option Nat
  deriving DecidableEq, Repr

/-- What `file.Read(buf)` gives back: the count, the error, the buffer after
the call and the file after the call. -/
structure FileRead where
  n : Nat
  err : Option Err
  buf : List Byte
  file : File
  deriving DecidableEq, Repr

/-- Method `(*os.File).Read`: one read of at most `len(buf)` bytes at the
current offset. An empty buffer gives `0, nil`; a failing device gives
`0, err`; at the end of the file it gives `0, io.EOF`. -/
def File.Read (f : File) (buf : List Byte) : FileRead :=
  if buf.length = 0 then ⟨0, none, buf, f⟩
  else if (match f.errAt with | some e => decide (e ≤ f.pos) | none => false) then
    ⟨0, some (Err.other "read: input/output error"), buf, f⟩
  else if f.data.length ≤ f.pos then ⟨0, some Err.EOF, buf, f⟩
  else
    let chunk := (f.data.drop f.pos).take buf.length
    ⟨chunk.length, none, copy buf chunk, { f with pos := f.pos + chunk.length }⟩

/-! ## The rate limited reader -/

structure SlowReaderType where
  file : File
  bytesPerSecond : Int
  bytesRead : Int
  localBuffer : List Byte
  deriving DecidableEq, Repr

/-- Constructor `SlowReader(file, bytesPerSecond)`; `none` is the panic of `make`. -/
def SlowReader (file : File) (bytesPerSecond : Int) : Option SlowReaderType :=
  match make bytesPerSecond with
  | none => none
  | some buf => some ⟨file, bytesPerSecond, 0, buf⟩

/-- Result of one `Read` on the rate limited reader: the returned count and
error, the caller's buffer and the reader after the call, the computed
`fraction`, and the duration handed to `time.Sleep` in nanoseconds (`none`
when the conversion of the float to a duration is left to the implementation). -/
structure ReadOut where
  n : Nat
  err : Option Err
  buffer : List Byte
  rdr : SlowReaderType
  fraction : F32
  sleep : Option Int
  deriving DecidableEq, Repr

/-- Duration `time.Duration(fraction*1000) * time.Millisecond`. -/
def sleepFor (fraction : F32) : Option Int :=
  (F32.toInt64? (F32.mul fraction (F32.ofInt 1000))).map (fun t => wrap64 (t * Millisecond))

/-- Method `(*SlowReaderType).Read`. -/
def SlowReaderType.Read (rdr : SlowReaderType) (buffer : List Byte) : ReadOut :=
  if buffer.length > rdr.localBuffer.length then
    let r := rdr.file.Read rdr.localBuffer
    let fraction := F32.div (F32.ofInt r.n) (F32.ofInt rdr.bytesPerSecond)
    ⟨r.n, r.err, copy buffer r.buf, { rdr with file := r.file, localBuffer := r.buf },
      fraction, sleepFor fraction⟩
  else
    let r := rdr.file.Read buffer
    let fraction := F32.div (F32.ofInt r.n) (F32.ofInt rdr.bytesPerSecond)
    ⟨r.n, r.err, r.buf, { rdr with file := r.file }, fraction, sleepFor fraction⟩

/-- What a reading loop has seen: the byte chunks `buf[:n]` delivered by the
calls, the durations the calls slept for, the reader at the end, and whether
the loop ended because a call returned `n == 0`. -/
structure Drained where
  chunks : List (List Byte)
  sleeps : List (Option Int)
  rdr : SlowReaderType
  ended : Bool
  deriving DecidableEq, Repr

/-- The loop of `TestSlowReader`, `for { n, err := rdr.Read(buf); if n == 0 { break } }`,
with one caller buffer per call; it stops at the first call that returns
`n == 0`, or when the given buffers are used up. -/
def readLoop (rdr : SlowReaderType) : List (List Byte) → Drained
  | [] => ⟨[], [], rdr, false⟩
  | buf :: rest =>
      let o := rdr.Read buf
      if o.n = 0 then ⟨[], [o.sleep], o.rdr, true⟩
      else
        let d := readLoop o.rdr rest
        ⟨o.buffer.take o.n :: d.chunks, o.sleep :: d.sleeps, d.rdr, d.ended⟩

/-- Sum of the durations requested from `time.Sleep`, in nanoseconds;
`time.Sleep` returns at once for a duration that is zero or negative. -/
def totalSleep : List (Option Int) → Option Int
  | [] => some 0
  | none :: _ => none
  | some d :: rest => (totalSleep rest).map (fun t => max d 0 + t)

/-! ## The process: control, events, the outside world -/

/-- How a call ends. `ret` is a normal return. `exit` is `os.Exit` (also
reached through `log.Fatal`): the process ends at once and deferred calls do
not run. `panic` is a run-time panic: the stack unwinds and deferred calls
run. `diverge` marks a loop that was still running when its fuel ran out. -/
inductive Ctl (α : Type) where
  | ret (a : α)
  | exit (code : Nat)
  | panic (msg : String)
  | diverge
  deriving DecidableEq, Repr

structure packet.PublicKey where
  keyId : Nat
  deriving DecidableEq, Repr

/-- The zero value `packet.Signature{}`. -/
structure packet.Signature where
  FlagsValid : Bool := false
  deriving DecidableEq, Repr

/-- A packet as returned by `(*packet.Reader).Next`: a `*packet.PublicKey`, or
a packet of another Go type (given by its OpenPGP tag). -/
inductive packet.Packet where
  | publicKey (k : packet.PublicKey)
  | other (tag : Nat)
  deriving DecidableEq, Repr

structure openpgp.Identity where
  SelfSignature : Option packet.Signature
  deriving DecidableEq, Repr

structure openpgp.Subkey where
  PublicKey : Option packet.PublicKey
  Sig : Option packet.Signature
  deriving DecidableEq, Repr

/-- Struct `openpgp.Entity`, with the fields the program sets; a pointer is an
`Option` (`none` is `nil`), the map of identities is an association list. -/
structure openpgp.Entity where
  PrimaryKey : Option packet.PublicKey
  Identities : List (String × openpgp.Identity)
  Subkeys : List openpgp.Subkey
  deriving DecidableEq, Repr

/-- The lines the program prints through `log`. -/
inductive LogLine where
  | uploaded (filename bucket key : String) (realKbps : F32)
  | skipped (filename bucket key : String)
  | fatal (err : Err)
  deriving DecidableEq, Repr

/-- What the process does to the outside world, in order. -/
inductive Event where
  | printDefaults
  | newSession (region : Option String)
  | getBucketLocation (bucket : String)
  | headObject (region : Option String) (bucket key : String)
  | openFile (path : String)
  | closeFile (path : String)
  | createTemp (path : String)
  | removeFile (path : String)
  | encryptInit (cipherfile : String) (recipient : openpgp.Entity) (hintFileName : String)
  | sinkWrite (chunk : List Byte)
  | sinkClose
  | put (url : String) (contentLength : Int) (bytesPerSecond : Int)
  | closeBody
  | log (line : LogLine)
  deriving DecidableEq, Repr

def Event.isPut : Event → Bool
  | .put _ _ _ => true
  | _ => false

def Event.isLog : Event → Bool
  | .log _ => true
  | _ => false

/-- Events of the encryption stage: the creation of the spool file and the use of the sink. -/
def Event.isEncrypt : Event → Bool
  | .createTemp _ => true
  | .encryptInit _ _ _ => true
  | .sinkWrite _ => true
  | .sinkClose => true
  | _ => false

/-- State outside the process: the temporary files that exist, and the events so far. -/
structure World where
  tmp : List String
  trace : List Event
  deriving DecidableEq, Repr

def World.emit (w : World) (e : Event) : World := { w with trace := w.trace ++ [e] }

/-- Call `ioutil.TempFile` succeeded with the name `path`: the file now exists. -/
def World.create (w : World) (path : String) : World :=
  { tmp := path :: w.tmp, trace := w.trace ++ [Event.createTemp path] }

/-- Call `os.Remove(path)`: the file does not exist afterwards. -/
def World.remove (w : World) (path : String) : World :=
  { tmp := w.tmp.filter (fun p => p ≠ path), trace := w.trace ++ [Event.removeFile path] }

/-- The PUT requests handed to the HTTP client so far. -/
def World.puts (w : World) : List Event := w.trace.filter Event.isPut

/-- The log lines printed so far. -/
def World.logs (w : World) : List Event := w.trace.filter Event.isLog

/-- Outcome of `openpgp.Encrypt`: a sink, an error, or a panic inside the library. -/
inductive EncryptInit where
  | ok
  | err (e : Err)
  | panic (msg : String)
  deriving DecidableEq, Repr

/-- Results of the calls that leave the program: the operating system, the
AWS SDK, `net/http`, `openpgp` and the clock. -/
structure Env where
  /-- Error of `session.NewSession` for a region. -/
  newSession : Option String → Option Err
  /-- Result of `GetBucketLocation`: the `LocationConstraint`. -/
  getBucketLocation : String → Except Err (Option String)
  /-- Field `LastModified` of the `HeadObject` output for region, bucket and key (its error is dropped by the caller). -/
  lastModified : Option String → String → String → Option Int
  /-- The URL of `PutObjectRequest` followed by `Presign` (the empty string when signing fails). -/
  presign : Option String → String → String → String
  /-- Whether `http.NewRequest("PUT", url, body)` returns a request for this URL. -/
  newRequest : String → Bool
  /-- Result of `http.DefaultClient.Do` for a URL and a declared length: the status code. -/
  httpDo : String → Int → Except Err Int
  /-- Value of `time.Since(begin)` after `Do` returned, in nanoseconds. -/
  elapsed : Int
  openFile : String → Except Err File
  /-- Result of `file.Stat()` followed by `Size()` for the file opened at a path. -/
  stat : String → Except Err Int
  /-- Result of `ioutil.TempFile("", "uploader")`: the name of the new file. -/
  tempFile : Except Err String
  /-- Result of `armor.Decode`: the body of the armored block. -/
  armorDecode : File → Except Err (List Byte)
  /-- Result of `packet.NewReader(block.Body).Next()`. -/
  nextPacket : List Byte → Except Err packet.Packet
  encrypt : openpgp.Entity → EncryptInit
  /-- Function `filepath.Base`. -/
  base : String → String

/-- Handle `*s3.S3`: a client bound to a region. -/
structure Svc where
  region : Option String
  deriving DecidableEq, Repr

/-- Call `log.Fatal(err)`: the error is printed and the process exits with status 1. -/
def fatal {α : Type} (e : Err) (w : World) : Ctl α × World :=
  (Ctl.exit 1, w.emit (Event.log (LogLine.fatal e)))

/-- Function `checkErr`. -/
def checkErr (err : Option Err) (w : World) : Ctl Unit × World :=
  match err with
  | some e => fatal e w
  | none => (Ctl.ret (), w)

/-- Function `objectExists`. -/
def objectExists (env : Env) (svc : Svc) (bucket key : String) (w : World) : Bool × World :=
  let w := w.emit (Event.headObject svc.region bucket key)
  match env.lastModified svc.region bucket key with
  | some _ => (true, w)
  | none => (false, w)

/-- Function `getService`; `session.Must` panics on a session error. -/
def getService (env : Env) (bucket : String) (w : World) : Ctl Svc × World :=
  let w := w.emit (Event.newSession (some "us-east-1"))
  match env.newSession (some "us-east-1") with
  | some _ => (Ctl.panic "session.Must", w)
  | none =>
    let w := w.emit (Event.getBucketLocation bucket)
    match env.getBucketLocation bucket with
    | Except.error e => fatal e w
    | Except.ok region =>
      let w := w.emit (Event.newSession region)
      match env.newSession region with
      | some _ => (Ctl.panic "session.Must", w)
      | none => (Ctl.ret ⟨region⟩, w)

/-- Function `entityFromFile`. The type assertion `pubKey, _ := pkt.(*packet.PublicKey)`
is written in its two result form: it does not panic, and `pubKey` is `nil`
when the packet is of another type. -/
def entityFromFile (env : Env) (filename : String) (w : World) : Ctl openpgp.Entity × World :=
  match env.openFile filename with
  | Except.error e => fatal e w
  | Except.ok f =>
    let w := w.emit (Event.openFile filename)
    match env.armorDecode f with
    | Except.error e => fatal e w
    | Except.ok body =>
      match env.nextPacket body with
      | Except.error e => fatal e w
      | Except.ok pkt =>
        let pubKey : Option packet.PublicKey :=
          match pkt with
          | packet.Packet.publicKey k => some k
          | packet.Packet.other _ => none
        let entity : openpgp.Entity :=
          { PrimaryKey := pubKey
            Identities := [("default", { SelfSignature := some {} })]
            Subkeys := [{ PublicKey := pubKey, Sig := some {} }] }
        (Ctl.ret entity, w.emit (Event.closeFile filename))

/-- The `for` loop of `encryptFile`: read up to `len(buf)` bytes, end the
process on an error other than `io.EOF`, leave the loop when nothing was read,
otherwise write `buf[:n]` to the sink (the result of `Write` is dropped). -/
def copyLoop : Nat → File → List Byte → World → Ctl Unit × World
  | 0, _, _, w => (Ctl.diverge, w)
  | fuel + 1, file, buf, w =>
    let r := file.Read buf
    match (if r.err ≠ none ∧ r.err ≠ some Err.EOF then checkErr r.err w else (Ctl.ret (), w)) with
    | (Ctl.ret (), w) =>
      if r.n = 0 then (Ctl.ret (), w)
      else copyLoop fuel r.file r.buf (w.emit (Event.sinkWrite (r.buf.take r.n)))
    | (c, w) => (c, w)

/-- Function `encryptFile`. Its deferred calls run in reverse order of
registration: `plaintext.Close()`, `cipherfile.Close()`, `file.Close()`. -/
def encryptFile (env : Env) (fuel : Nat) (filename pubkey : String) (w : World) :
    Ctl String × World :=
  match env.openFile filename with
  | Except.error e => fatal e w
  | Except.ok file =>
    let w := w.emit (Event.openFile filename)
    match entityFromFile env pubkey w with
    | (Ctl.exit c, w) => (Ctl.exit c, w)
    | (Ctl.panic m, w) => (Ctl.panic m, w.emit (Event.closeFile filename))
    | (Ctl.diverge, w) => (Ctl.diverge, w)
    | (Ctl.ret entity, w) =>
      match env.tempFile with
      | Except.error e => fatal e w
      | Except.ok cipherfile =>
        let w := w.create cipherfile
        let w := w.emit (Event.encryptInit cipherfile entity (env.base filename))
        match env.encrypt entity with
        | EncryptInit.err e => fatal e w
        | EncryptInit.panic m =>
          (Ctl.panic m, (w.emit (Event.closeFile cipherfile)).emit (Event.closeFile filename))
        | EncryptInit.ok =>
          match copyLoop fuel file (zeros 1024) w with
          | (Ctl.ret (), w) =>
            (Ctl.ret cipherfile,
              ((w.emit Event.sinkClose).emit (Event.closeFile cipherfile)).emit
                (Event.closeFile filename))
          | (Ctl.exit c, w) => (Ctl.exit c, w)
          | (Ctl.panic m, w) =>
            (Ctl.panic m,
              ((w.emit Event.sinkClose).emit (Event.closeFile cipherfile)).emit
                (Event.closeFile filename))
          | (Ctl.diverge, w) => (Ctl.diverge, w)

/-- Expression `float32(fi.Size()/1024) / float32(time.Since(begin)/time.Second)`
of `upload`: both integer divisions truncate before the conversion to `float32`. -/
def realKbps (size elapsed : Int) : F32 :=
  F32.div (F32.ofInt (Int.tdiv size 1024)) (F32.ofInt (Int.tdiv elapsed Second))

/-- Function `upload`. The PUT is recorded when the request is handed to
`http.DefaultClient.Do`, with the `ContentLength` it then carries. -/
def upload (env : Env) (filename : String) (svc : Svc) (bucket key : String) (kbps : Int)
    (w : World) : Ctl Unit × World :=
  match env.openFile filename with
  | Except.error e => fatal e w
  | Except.ok file =>
    let w := w.emit (Event.openFile filename)
    let url := env.presign svc.region bucket key
    match SlowReader file (wrap64 (kbps * 1024)) with
    | none => (Ctl.panic "makeslice: len out of range", w.emit (Event.closeFile filename))
    | some body =>
      match env.stat filename with
      | Except.error e => fatal e w
      | Except.ok size =>
        if env.newRequest url then
          let contentLength := size
          let w := w.emit (Event.put url contentLength body.bytesPerSecond)
          match env.httpDo url contentLength with
          | Except.error e => fatal e w
          | Except.ok statusCode =>
            let w :=
              if statusCode = 200 then
                w.emit (Event.log (LogLine.uploaded filename bucket key (realKbps size env.elapsed)))
              else w
            (Ctl.ret (), (w.emit Event.closeBody).emit (Event.closeFile filename))
        else
          (Ctl.panic "invalid memory address or nil pointer dereference",
            w.emit (Event.closeFile filename))

/-- Function `main`, after `flag.Parse` has filled in the five flags. The
deferred `os.Remove(tmpfile)` runs when `main` returns or panics, and does not
run when the process exits inside `upload`. -/
def main (env : Env) (fuel : Nat) (bucket key filename pubkey : String) (kbps : Int)
    (w : World) : Ctl Unit × World :=
  if filename = "" ∨ pubkey = "" then (Ctl.exit 1, w.emit Event.printDefaults)
  else
    match getService env bucket w with
    | (Ctl.exit c, w) => (Ctl.exit c, w)
    | (Ctl.panic m, w) => (Ctl.panic m, w)
    | (Ctl.diverge, w) => (Ctl.diverge, w)
    | (Ctl.ret svc, w) =>
      match objectExists env svc bucket key w with
      | (false, w) =>
        match encryptFile env fuel filename pubkey w with
        | (Ctl.exit c, w) => (Ctl.exit c, w)
        | (Ctl.panic m, w) => (Ctl.panic m, w)
        | (Ctl.diverge, w) => (Ctl.diverge, w)
        | (Ctl.ret tmpfile, w) =>
          match upload env tmpfile svc bucket key kbps w with
          | (Ctl.ret (), w) => (Ctl.ret (), w.remove tmpfile)
          | (Ctl.panic m, w) => (Ctl.panic m, w.remove tmpfile)
          | (Ctl.exit c, w) => (Ctl.exit c, w)
          | (Ctl.diverge, w) => (Ctl.diverge, w)
      | (true, w) =>
        (Ctl.ret (), w.emit (Event.log (LogLine.skipped filename bucket key)))

/-! ## Concrete runs -/

/-- Content of a test file of `n` bytes. -/
def testData (n : Nat) : List Byte := (List.range n).map (fun i => i % 256)

/-- What `readLoop` computes when no caller buffer is longer than the chunk
buffer of the reader, so that every `Read` goes through its `else` branch:
the delivered chunks, the sleeps and whether the loop ended with `n == 0`.
Used to evaluate `readLoop` without building the chunk buffer. -/
def directLoop (file : File) (bytesPerSecond : Int) :
    List (List Byte) → List (List Byte) × List (Option Int) × Bool
  | [] => ([], [], false)
  | buf :: rest =>
      let r := file.Read buf
      let s := sleepFor (F32.div (F32.ofInt r.n) (F32.ofInt bytesPerSecond))
      if r.n = 0 then ([], [s], true)
      else
        let d := directLoop r.file bytesPerSecond rest
        (r.buf.take r.n :: d.1, s :: d.2.1, d.2.2)

/-- A run in which every outside call succeeds: bucket `b`, key `k`, a five
byte `plain.txt`, a key file whose first packet is a public key, a spool file
`/tmp/uploader123` of 10240 bytes, status 200 after one and a half seconds. -/
def sampleEnv : Env where
  newSession := fun _ => none
  getBucketLocation := fun _ => Except.ok (some "eu-west-1")
  lastModified := fun _ _ _ => none
  presign := fun _ _ _ => "https://b.s3.eu-west-1.amazonaws.com/k?X-Amz-Expires=300"
  newRequest := fun _ => true
  httpDo := fun _ _ => Except.ok 200
  elapsed := 1500000000
  openFile := fun p =>
    if p = "plain.txt" then Except.ok ⟨[112, 108, 97, 105, 110], 0, none⟩
    else Except.ok ⟨[153, 1, 13], 0, none⟩
  stat := fun _ => Except.ok 10240
  tempFile := Except.ok "/tmp/uploader123"
  armorDecode := fun f => Except.ok f.data
  nextPacket := fun _ => Except.ok (packet.Packet.publicKey ⟨1⟩)
  encrypt := fun _ => EncryptInit.ok
  base := fun p => p

/-- As `sampleEnv`, but the object is already in the bucket. -/
def envObjectExists : Env :=
  { sampleEnv with lastModified := fun _ _ _ => some 1730000000 }

/-- As `sampleEnv`, but the PUT fails in the transport. -/
def envTransportError : Env :=
  { sampleEnv with httpDo := fun _ _ => Except.error (Err.other "dial tcp: connection refused") }

/-- As `sampleEnv`, but `openpgp.Encrypt` returns an error. -/
def envEncryptError : Env :=
  { sampleEnv with encrypt := fun _ => EncryptInit.err (Err.other "openpgp: invalid argument") }

/-- As `sampleEnv`, but the endpoint answers the PUT with 403. -/
def envForbidden : Env :=
  { sampleEnv with httpDo := fun _ _ => Except.ok 403 }

/-- As `sampleEnv`, but the first packet of the key file is a secret key packet
(tag 5), as in an armored private key block. -/
def envNotAKey : Env :=
  { sampleEnv with nextPacket := fun _ => Except.ok (packet.Packet.other 5) }

/-- As `sampleEnv`, with a spool file of 10000 bytes sent in half a second. -/
def envFast : Env :=
  { sampleEnv with stat := fun _ => Except.ok 10000, elapsed := 500000000 }

/-- As `sampleEnv`, but the device under `plain.txt` fails from offset 2 on. -/
def envReadError : Env :=
  { sampleEnv with
    openFile := fun p =>
      if p = "plain.txt" then Except.ok ⟨[112, 108, 97, 105, 110], 0, some 2⟩
      else Except.ok ⟨[153, 1, 13], 0, none⟩ }

/-- The entity that `entityFromFile` builds in the sample run. -/
def sampleEntity : openpgp.Entity :=
  { PrimaryKey := some ⟨1⟩
    Identities := [("default", { SelfSignature := some {} })]
    Subkeys := [{ PublicKey := some ⟨1⟩, Sig := some {} }] }

/-- The world before the process starts: no temporary file, no event. -/
def World.init : World := ⟨[], []⟩

/-! # Theorems -/

/-! ## Facts about buffers, files and the reader -/

theorem copy_length (dst src : List Byte) : (copy dst src).length = dst.length := by
  simp only [copy, List.length_append, List.length_take, List.length_drop]
  omega

theorem copy_take (dst src : List Byte) (n : Nat) (h : src.length ≤ dst.length)
    (hn : n ≤ src.length) : (copy dst src).take n = src.take n := by
  have h1 : src.take dst.length = src := List.take_of_length_le h
  simp only [copy, h1]
  rw [List.take_append_of_le_length hn]

/-- What one read of the underlying file does: the count is bounded by the
buffer, the offset moves by the count, the content and the failing offset stay,
and the first `n` bytes of the buffer are the next `n` bytes of the file. -/
theorem File.Read_spec (f : File) (buf : List Byte) :
    (f.Read buf).n ≤ buf.length ∧ (f.Read buf).n ≤ f.data.length - f.pos ∧
    (f.Read buf).file.pos = f.pos + (f.Read buf).n ∧
    (f.Read buf).file.data = f.data ∧ (f.Read buf).file.errAt = f.errAt ∧
    (f.Read buf).buf.length = buf.length ∧
    (f.Read buf).buf.take (f.Read buf).n = (f.data.drop f.pos).take (f.Read buf).n := by
  unfold File.Read
  split_ifs with h1 h2 h3
  · simp
  · simp
  · simp
  · have hlen : ((f.data.drop f.pos).take buf.length).length ≤ buf.length := by
      simp only [List.length_take]; omega
    refine ⟨hlen, by simp only [List.length_take, List.length_drop]; omega,
      rfl, rfl, rfl, copy_length _ _, ?_⟩
    simp only
    rw [copy_take _ _ _ hlen (le_refl _)]
    simp [List.take_take]

/-- A read that returns nothing from a device without failure, into a buffer
that has room, has reached the end of the file. -/
theorem File.Read_zero (f : File) (buf : List Byte) (hb : 0 < buf.length)
    (he : f.errAt = none) (hn : (f.Read buf).n = 0) :
    f.data.length ≤ f.pos ∧ (f.Read buf).err = some Err.EOF := by
  unfold File.Read at hn ⊢
  have hb0 : ¬ buf.length = 0 := by omega
  simp only [hb0, he, if_false, Bool.false_eq_true] at hn ⊢
  split_ifs at hn ⊢ with h3
  · exact ⟨h3, rfl⟩
  · simp only [List.length_take, List.length_drop] at hn
    omega

theorem SlowReaderType.slowRead_spec (rdr : SlowReaderType) (buffer : List Byte) :
    (rdr.Read buffer).n ≤ buffer.length ∧ (rdr.Read buffer).n ≤ rdr.localBuffer.length ∧
    (rdr.Read buffer).n ≤ rdr.file.data.length - rdr.file.pos ∧
    (rdr.Read buffer).rdr.file.pos = rdr.file.pos + (rdr.Read buffer).n ∧
    (rdr.Read buffer).rdr.file.data = rdr.file.data ∧
    (rdr.Read buffer).rdr.file.errAt = rdr.file.errAt ∧
    (rdr.Read buffer).buffer.length = buffer.length ∧
    (rdr.Read buffer).buffer.take (rdr.Read buffer).n
      = (rdr.file.data.drop rdr.file.pos).take (rdr.Read buffer).n ∧
    (rdr.Read buffer).rdr.localBuffer.length = rdr.localBuffer.length ∧
    (rdr.Read buffer).rdr.bytesPerSecond = rdr.bytesPerSecond := by
  unfold SlowReaderType.Read
  split_ifs with h
  · obtain ⟨h1, h0, h2, h3, h4, h5, h6⟩ := File.Read_spec rdr.file rdr.localBuffer
    refine ⟨by simp only; omega, h1, h0, h2, h3, h4, copy_length _ _, ?_, h5, rfl⟩
    simp only
    rw [copy_take _ _ _ (by omega) (by omega)]
    exact h6
  · obtain ⟨h1, h0, h2, h3, h4, h5, h6⟩ := File.Read_spec rdr.file buffer
    exact ⟨h1, by simp only; omega, h0, h2, h3, h4, h5, h6, rfl, rfl⟩

theorem SlowReaderType.slowRead_zero (rdr : SlowReaderType) (buffer : List Byte)
    (hb : 0 < buffer.length) (hl : 0 < rdr.localBuffer.length) (he : rdr.file.errAt = none)
    (hn : (rdr.Read buffer).n = 0) : rdr.file.data.length ≤ rdr.file.pos := by
  unfold SlowReaderType.Read at hn
  split_ifs at hn with h
  · exact (File.Read_zero rdr.file rdr.localBuffer hl he hn).1
  · exact (File.Read_zero rdr.file buffer hb he hn).1

/-- Loop invariant of `readLoop`: what has been delivered, followed by what is
still unread, is what was unread at the start. -/
theorem readLoop_join (bufs : List (List Byte)) (rdr : SlowReaderType) :
    (readLoop rdr bufs).chunks.flatten ++
        (readLoop rdr bufs).rdr.file.data.drop (readLoop rdr bufs).rdr.file.pos
      = rdr.file.data.drop rdr.file.pos := by
  induction bufs generalizing rdr with
  | nil => simp [readLoop]
  | cons buf rest ih =>
    obtain ⟨-, -, -, h3, h4, -, -, h7, -, -⟩ := SlowReaderType.slowRead_spec rdr buf
    by_cases h0 : (rdr.Read buf).n = 0
    · simp only [readLoop, h0, if_true, List.flatten_nil, List.nil_append, h4, h3, Nat.add_zero]
    · simp only [readLoop, h0, if_false, List.flatten_cons, List.append_assoc]
      rw [ih, h4, h3, h7, ← List.drop_drop]
      exact List.take_append_drop _ _

/-- With a positive rate, buffers that have room and a device that does not
fail, the loop ends at the end of the file once it has more buffers than there
are bytes left. -/
theorem readLoop_ended (bufs : List (List Byte)) (rdr : SlowReaderType)
    (hl : 0 < rdr.localBuffer.length) (he : rdr.file.errAt = none)
    (hb : ∀ b ∈ bufs, 0 < b.length)
    (hfuel : rdr.file.data.length - rdr.file.pos < bufs.length) :
    (readLoop rdr bufs).ended = true ∧
      rdr.file.data.length ≤ (readLoop rdr bufs).rdr.file.pos := by
  induction bufs generalizing rdr with
  | nil => simp at hfuel
  | cons buf rest ih =>
    obtain ⟨-, -, h2, h3, h4, h5, -, -, h8, -⟩ := SlowReaderType.slowRead_spec rdr buf
    have hbuf : 0 < buf.length := hb buf (List.mem_cons_self _ _)
    by_cases h0 : (rdr.Read buf).n = 0
    · simp only [readLoop, h0, if_true, h3, Nat.add_zero, true_and]
      exact SlowReaderType.slowRead_zero rdr buf hbuf hl he h0
    · simp only [readLoop, h0, if_false]
      have := ih (rdr.Read buf).rdr (by omega) (by rw [h5]; exact he)
        (fun b hb2 => hb b (List.mem_cons_of_mem _ hb2))
        (by simp only [List.length_cons] at hfuel; rw [h4, h3]; omega)
      rw [h4] at this
      exact this

@[simp] theorem World.logs_emit (w : World) (e : Event) :
    (w.emit e).logs = if e.isLog then w.logs ++ [e] else w.logs := by
  cases h : e.isLog <;> simp [World.logs, World.emit, List.filter_append, h]

theorem zeros_length (n : Nat) : (zeros n).length = n := List.length_replicate _ _

/-- A reader whose chunk buffer is at least as long as every caller buffer
behaves as `directLoop` says. -/
theorem readLoop_direct (bufs : List (List Byte)) (rdr : SlowReaderType)
    (h : ∀ b ∈ bufs, b.length ≤ rdr.localBuffer.length) :
    (readLoop rdr bufs).chunks = (directLoop rdr.file rdr.bytesPerSecond bufs).1 ∧
    (readLoop rdr bufs).sleeps = (directLoop rdr.file rdr.bytesPerSecond bufs).2.1 ∧
    (readLoop rdr bufs).ended = (directLoop rdr.file rdr.bytesPerSecond bufs).2.2 := by
  induction bufs generalizing rdr with
  | nil => simp [readLoop, directLoop]
  | cons buf rest ih =>
    have hb : ¬ buf.length > rdr.localBuffer.length := by
      have := h buf (List.mem_cons_self _ _)
      omega
    have hread : rdr.Read buf =
        ⟨(rdr.file.Read buf).n, (rdr.file.Read buf).err, (rdr.file.Read buf).buf,
          { rdr with file := (rdr.file.Read buf).file },
          F32.div (F32.ofInt (rdr.file.Read buf).n) (F32.ofInt rdr.bytesPerSecond),
          sleepFor (F32.div (F32.ofInt (rdr.file.Read buf).n) (F32.ofInt rdr.bytesPerSecond))⟩ := by
      unfold SlowReaderType.Read
      rw [if_neg hb]
    by_cases h0 : (rdr.file.Read buf).n = 0
    · simp [readLoop, directLoop, hread, h0]
    · have := ih { rdr with file := (rdr.file.Read buf).file }
        (fun b hb2 => h b (List.mem_cons_of_mem _ hb2))
      simp only at this
      simp [readLoop, directLoop, hread, h0, this]

/-! ## Facts about the trace -/

@[simp] theorem World.puts_emit (w : World) (e : Event) :
    (w.emit e).puts = if e.isPut then w.puts ++ [e] else w.puts := by
  cases h : e.isPut <;> simp [World.puts, World.emit, List.filter_append, h]

@[simp] theorem World.puts_create (w : World) (p : String) : (w.create p).puts = w.puts := by
  simp [World.puts, World.create, List.filter_append, Event.isPut]

@[simp] theorem World.puts_remove (w : World) (p : String) : (w.remove p).puts = w.puts := by
  simp [World.puts, World.remove, List.filter_append, Event.isPut]

theorem fatal_puts {α : Type} (e : Err) (w : World) : (fatal e w : Ctl α × World).2.puts = w.puts := by
  simp [fatal, Event.isPut]

theorem checkErr_puts (err : Option Err) (w : World) : (checkErr err w).2.puts = w.puts := by
  cases err <;> simp [checkErr, fatal, Event.isPut]

theorem getService_puts (env : Env) (bucket : String) (w : World) :
    (getService env bucket w).2.puts = w.puts := by
  unfold getService
  simp only
  split
  · simp [Event.isPut]
  · split
    · simp [fatal, Event.isPut]
    · split <;> simp [Event.isPut]

theorem objectExists_puts (env : Env) (svc : Svc) (bucket key : String) (w : World) :
    (objectExists env svc bucket key w).2.puts = w.puts := by
  unfold objectExists
  simp only
  split <;> simp [Event.isPut]

theorem entityFromFile_puts (env : Env) (filename : String) (w : World) :
    (entityFromFile env filename w).2.puts = w.puts := by
  unfold entityFromFile
  split
  · simp [fatal, Event.isPut]
  · simp only
    split
    · simp [fatal, Event.isPut]
    · split <;> simp [fatal, Event.isPut]

theorem copyLoop_puts (fuel : Nat) (file : File) (buf : List Byte) (w : World) :
    (copyLoop fuel file buf w).2.puts = w.puts := by
  induction fuel generalizing file buf w with
  | zero => simp [copyLoop]
  | succ fuel ih =>
    unfold copyLoop
    simp only
    by_cases herr : (file.Read buf).err ≠ none ∧ (file.Read buf).err ≠ some Err.EOF
    · rw [if_pos herr]
      obtain ⟨h1, -⟩ := herr
      obtain ⟨e, he⟩ := Option.ne_none_iff_exists'.mp h1
      simp [he, checkErr, fatal, Event.isPut]
    · rw [if_neg herr]
      simp only
      split_ifs with h0
      · rfl
      · rw [ih]; simp [Event.isPut]

theorem encryptFile_puts (env : Env) (fuel : Nat) (filename pubkey : String) (w : World) :
    (encryptFile env fuel filename pubkey w).2.puts = w.puts := by
  unfold encryptFile
  split
  · simp [fatal, Event.isPut]
  · simp only
    have hk := entityFromFile_puts env pubkey (w.emit (Event.openFile filename))
    split
    · next h => rw [h] at hk; simpa [Event.isPut] using hk
    · next h => rw [h] at hk; simpa [Event.isPut] using hk
    · next h => rw [h] at hk; simpa [Event.isPut] using hk
    · next entity w1 h =>
      rw [h] at hk
      simp only [World.puts_emit, Event.isPut] at hk
      split
      · simpa [fatal, Event.isPut] using hk
      · next cipherfile _ =>
        split
        · simpa [fatal, Event.isPut] using hk
        · simpa [Event.isPut] using hk
        · have hc := copyLoop_puts fuel ‹File› (zeros 1024)
            ((w1.create cipherfile).emit (Event.encryptInit cipherfile entity (env.base filename)))
          split
          · next h2 => rw [h2] at hc; simpa [Event.isPut, hk] using hc
          · next h2 => rw [h2] at hc; simpa [Event.isPut, hk] using hc
          · next h2 => rw [h2] at hc; simpa [Event.isPut, hk] using hc
          · next h2 => rw [h2] at hc; simpa [Event.isPut, hk] using hc

theorem SlowReader_bytesPerSecond (file : File) (bps : Int) (rdr : SlowReaderType)
    (h : SlowReader file bps = some rdr) :
    rdr.bytesPerSecond = bps ∧ rdr.file = file ∧ rdr.localBuffer.length = bps.toNat ∧ 0 ≤ bps := by
  unfold SlowReader make at h
  split_ifs at h with hneg
  simp only [Option.some.injEq] at h
  subst h
  exact ⟨rfl, rfl, by simp [zeros], by omega⟩

/-- A call of `upload` that returns has handed exactly one PUT to the HTTP
client, with the size reported by `Stat` as its declared length. -/
theorem upload_ret (env : Env) (filename : String) (svc : Svc) (bucket key : String) (kbps : Int)
    (w : World) (h : (upload env filename svc bucket key kbps w).1 = Ctl.ret ()) :
    ∃ size, env.stat filename = Except.ok size ∧
      (upload env filename svc bucket key kbps w).2.puts =
        w.puts ++ [Event.put (env.presign svc.region bucket key) size (wrap64 (kbps * 1024))] := by
  unfold upload at h ⊢
  cases hopen : env.openFile filename with
  | error e => simp [hopen, fatal] at h
  | ok file =>
    simp only [hopen] at h ⊢
    cases hbody : SlowReader file (wrap64 (kbps * 1024)) with
    | none => simp [hbody] at h
    | some body =>
      have hbps := (SlowReader_bytesPerSecond _ _ _ hbody).1
      simp only [hbody] at h ⊢
      cases hstat : env.stat filename with
      | error e => simp [hstat, fatal] at h
      | ok size =>
        simp only [hstat] at h ⊢
        refine ⟨size, rfl, ?_⟩
        by_cases hreq : env.newRequest (env.presign svc.region bucket key) = true
        · simp only [hreq, if_true] at h ⊢
          cases hdo : env.httpDo (env.presign svc.region bucket key) size with
          | error e => simp [hdo, fatal] at h
          | ok status => simp only [hdo]; split_ifs <;> simp [Event.isPut, hbps]
        · simp [hreq] at h

/-- The path that `encryptFile` returns is the name of the temporary file it created. -/
theorem encryptFile_ret (env : Env) (fuel : Nat) (filename pubkey : String) (w : World)
    (p : String) (h : (encryptFile env fuel filename pubkey w).1 = Ctl.ret p) :
    env.tempFile = Except.ok p := by
  unfold encryptFile at h
  cases hopen : env.openFile filename with
  | error e => simp [hopen, fatal] at h
  | ok file =>
    simp only [hopen] at h
    cases hent : entityFromFile env pubkey (w.emit (Event.openFile filename)) with
    | mk c w1 =>
      cases c with
      | exit c => simp [hent] at h
      | panic m => simp [hent] at h
      | diverge => simp [hent] at h
      | ret entity =>
        simp only [hent] at h
        cases htmp : env.tempFile with
        | error e => simp [htmp, fatal] at h
        | ok cipherfile =>
          simp only [htmp] at h
          cases henc : env.encrypt entity with
          | err e => simp [henc, fatal] at h
          | panic m => simp [henc] at h
          | ok =>
            simp only [henc] at h
            cases hloop : copyLoop fuel file (zeros 1024)
                ((w1.create cipherfile).emit
                  (Event.encryptInit cipherfile entity (env.base filename))) with
            | mk c w2 =>
              cases c with
              | exit c => simp [hloop] at h
              | panic m => simp [hloop] at h
              | diverge => simp [hloop] at h
              | ret u =>
                simp only [hloop, Ctl.ret.injEq] at h
                rw [h]

/-- A call of `getService` that returns has created no file and has emitted
nothing but session and bucket location events. -/
theorem getService_ret (env : Env) (bucket : String) (w w1 : World) (svc : Svc)
    (h : getService env bucket w = (Ctl.ret svc, w1)) :
    w1.tmp = w.tmp ∧ ∃ evs, w1.trace = w.trace ++ evs ∧
      ∀ e ∈ evs, e.isEncrypt = false ∧ e.isPut = false ∧ e.isLog = false := by
  unfold getService at h
  simp only at h
  cases h1 : env.newSession (some "us-east-1") with
  | some e => simp [h1] at h
  | none =>
    simp only [h1] at h
    cases h2 : env.getBucketLocation bucket with
    | error e => simp [h2, fatal] at h
    | ok region =>
      simp only [h2] at h
      cases h3 : env.newSession region with
      | some e => simp [h3] at h
      | none =>
        simp only [h3, Prod.mk.injEq, Ctl.ret.injEq] at h
        obtain ⟨-, rfl⟩ := h
        refine ⟨rfl, [Event.newSession (some "us-east-1"), Event.getBucketLocation bucket,
          Event.newSession region], by simp [World.emit], ?_⟩
        intro e he
        simp only [List.mem_cons, List.mem_singleton, List.not_mem_nil, or_false] at he
        rcases he with rfl | rfl | rfl <;> simp [Event.isEncrypt, Event.isPut, Event.isLog]

/-! ## The copy loop of `encryptFile` -/

/-- The three things one read into a buffer with room can do. -/
theorem File.Read_cases (f : File) (buf : List Byte) (hb : 0 < buf.length) :
    ((∃ e, f.errAt = some e ∧ e ≤ f.pos) ∧ (f.Read buf).n = 0 ∧
        (f.Read buf).err = some (Err.other "read: input/output error")) ∨
    ((∀ e, f.errAt = some e → f.pos < e) ∧ f.data.length ≤ f.pos ∧ (f.Read buf).n = 0 ∧
        (f.Read buf).err = some Err.EOF) ∨
    ((∀ e, f.errAt = some e → f.pos < e) ∧ f.pos < f.data.length ∧ 0 < (f.Read buf).n ∧
        (f.Read buf).err = none) := by
  have hb0 : ¬ buf.length = 0 := by omega
  unfold File.Read
  simp only [hb0, if_false]
  cases he : f.errAt with
  | none =>
    simp only [Bool.false_eq_true, if_false]
    by_cases hlen : f.data.length ≤ f.pos
    · right; left
      simp [hlen]
    · right; right
      simp only [hlen, if_false, List.length_take, List.length_drop]
      refine ⟨by simp, by omega, by omega, trivial⟩
  | some e =>
    by_cases hep : e ≤ f.pos
    · left
      simp [hep]
    · simp only [hep, decide_False, Bool.false_eq_true, if_false]
      by_cases hlen : f.data.length ≤ f.pos
      · right; left
        simp only [hlen, if_true]
        refine ⟨?_, trivial, trivial, trivial⟩
        intro e2 h2
        simp only [Option.some.injEq] at h2
        omega
      · right; right
        simp only [hlen, if_false, List.length_take, List.length_drop]
        refine ⟨?_, by omega, by omega, trivial⟩
        intro e2 h2
        simp only [Option.some.injEq] at h2
        omega

/-- On a file that can be read to its end, the loop ends after writing the
unread bytes to the sink as non-empty chunks of at most `len(buf)` bytes. -/
theorem copyLoop_ok (fuel : Nat) (f : File) (buf : List Byte) (w : World)
    (he : f.errAt = none) (hb : 0 < buf.length) (hfuel : f.data.length - f.pos < fuel) :
    ∃ chunks : List (List Byte),
      (∀ c ∈ chunks, 0 < c.length ∧ c.length ≤ buf.length) ∧
      chunks.flatten = f.data.drop f.pos ∧
      copyLoop fuel f buf w = (Ctl.ret (), ⟨w.tmp, w.trace ++ chunks.map Event.sinkWrite⟩) := by
  induction fuel generalizing f buf w with
  | zero => omega
  | succ fuel ih =>
    obtain ⟨s1, s2, s3, s4, s5, s6, s7⟩ := File.Read_spec f buf
    unfold copyLoop
    rcases File.Read_cases f buf hb with ⟨⟨e, h1, -⟩, -⟩ | ⟨-, hlen, hn, herr⟩ | ⟨-, hlen, hn, herr⟩
    · rw [he] at h1; cases h1
    · refine ⟨[], by simp, ?_, ?_⟩
      · simp [List.drop_eq_nil_of_le hlen]
      · simp [herr, hn]
    · have hn0 : ¬ (f.Read buf).n = 0 := by omega
      obtain ⟨chunks, hc1, hc2, hc3⟩ := ih (f.Read buf).file (f.Read buf).buf
        (w.emit (Event.sinkWrite ((f.Read buf).buf.take (f.Read buf).n)))
        (by rw [s5]; exact he) (by rw [s6]; exact hb) (by rw [s4, s3]; omega)
      refine ⟨(f.Read buf).buf.take (f.Read buf).n :: chunks, ?_, ?_, ?_⟩
      · intro c hc
        simp only [List.mem_cons] at hc
        rcases hc with rfl | hc
        · simp only [List.length_take]
          omega
        · have := hc1 c hc
          rw [s6] at this
          exact this
      · rw [List.flatten_cons, hc2, s4, s3, s7, ← List.drop_drop]
        exact List.take_append_drop _ _
      · simp only [herr, ne_eq, not_true_eq_false, false_and, if_false, hn0, hc3]
        simp [World.emit]

/-- On a file whose device fails at an offset within the content, the loop
ends the process. -/
theorem copyLoop_err (fuel : Nat) (f : File) (buf : List Byte) (w : World) (e : Nat)
    (he : f.errAt = some e) (hel : e ≤ f.data.length) (hb : 0 < buf.length)
    (hfuel : f.data.length - f.pos < fuel) :
    (copyLoop fuel f buf w).1 = Ctl.exit 1 := by
  induction fuel generalizing f buf w with
  | zero => omega
  | succ fuel ih =>
    obtain ⟨s1, s2, s3, s4, s5, s6, s7⟩ := File.Read_spec f buf
    unfold copyLoop
    rcases File.Read_cases f buf hb with ⟨-, hn, herr⟩ | ⟨h1, hlen, hn, herr⟩ | ⟨-, hlen, hn, herr⟩
    · simp [herr, checkErr, fatal]
    · have := h1 e he
      omega
    · have hn0 : ¬ (f.Read buf).n = 0 := by omega
      simp only [herr, ne_eq, not_true_eq_false, false_and, if_false, hn0]
      exact ih (f.Read buf).file (f.Read buf).buf _ (by rw [s5]; exact he) (by rw [s4]; exact hel)
        (by rw [s6]; exact hb) (by rw [s4, s3]; omega)

/-! ## The claims -/

/-- C1, evaluated where it fails. When the PUT fails in the transport,
`checkErr` in `upload` ends the process with status 1 and the spool file
`/tmp/uploader123` that `encryptFile` created still exists: no `os.Remove` was
run. The same holds when `openpgp.Encrypt` returns an error, after the spool
file was created inside `encryptFile`. -/
theorem C1_spool_file_outlives_fatal_exit :
    (main envTransportError 10 "b" "k" "plain.txt" "pub.asc" 10 World.init).1 = Ctl.exit 1 ∧
    (main envTransportError 10 "b" "k" "plain.txt" "pub.asc" 10 World.init).2.tmp
      = ["/tmp/uploader123"] ∧
    Event.removeFile "/tmp/uploader123" ∉
      (main envTransportError 10 "b" "k" "plain.txt" "pub.asc" 10 World.init).2.trace ∧
    (main envEncryptError 10 "b" "k" "plain.txt" "pub.asc" 10 World.init).1 = Ctl.exit 1 ∧
    (main envEncryptError 10 "b" "k" "plain.txt" "pub.asc" 10 World.init).2.tmp
      = ["/tmp/uploader123"] := by
  set_option maxRecDepth 100000 in decide

/-- The deferred `os.Remove` does its work on the other paths: after a
successful upload and after a 403 the spool file is gone. -/
theorem spool_file_removed_on_return :
    (main sampleEnv 10 "b" "k" "plain.txt" "pub.asc" 10 World.init).2.tmp = [] ∧
    (main envForbidden 10 "b" "k" "plain.txt" "pub.asc" 10 World.init).2.tmp = [] := by
  set_option maxRecDepth 100000 in decide

/-- C2: whenever `objectExists` returns true in a run of `main`, the run
returns normally having called neither `encryptFile` nor `upload`: no
temporary file is created, the events after the start contain no event of the
encryption stage and no PUT, and the only line logged is the "skipped" line
naming the filename, the bucket and the key. -/
theorem C2_existing_object_is_skipped (env : Env) (fuel : Nat)
    (bucket key filename pubkey : String) (kbps : Int) (w : World)
    (hflags : ¬ (filename = "" ∨ pubkey = ""))
    (hex : ∃ svc w1, getService env bucket w = (Ctl.ret svc, w1) ∧
      (objectExists env svc bucket key w1).1 = true) :
    (main env fuel bucket key filename pubkey kbps w).1 = Ctl.ret () ∧
    (main env fuel bucket key filename pubkey kbps w).2.tmp = w.tmp ∧
    ∃ evs, (main env fuel bucket key filename pubkey kbps w).2.trace = w.trace ++ evs ∧
      (∀ e ∈ evs, e.isEncrypt = false ∧ e.isPut = false) ∧
      evs.filter Event.isLog = [Event.log (LogLine.skipped filename bucket key)] := by
  obtain ⟨svc, w1, hsvc, htrue⟩ := hex
  obtain ⟨htmp, evs, htrace, hevs⟩ := getService_ret env bucket w w1 svc hsvc
  have hnolog : evs.filter Event.isLog = [] := by
    rw [List.filter_eq_nil_iff]
    intro e he
    simp [(hevs e he).2.2]
  unfold main
  simp only [hflags, if_false, hsvc]
  unfold objectExists at htrue ⊢
  cases hlm : env.lastModified svc.region bucket key with
  | none => simp [hlm] at htrue
  | some t =>
    simp only [hlm]
    refine ⟨trivial, htmp, evs ++ [Event.headObject svc.region bucket key,
      Event.log (LogLine.skipped filename bucket key)], ?_, ?_, ?_⟩
    · simp [World.emit, htrace]
    · intro e he
      simp only [List.mem_append, List.mem_cons, List.mem_singleton, List.not_mem_nil,
        or_false] at he
      rcases he with he | rfl | rfl
      · exact ⟨(hevs e he).1, (hevs e he).2.1⟩
      · simp [Event.isEncrypt, Event.isPut]
      · simp [Event.isEncrypt, Event.isPut]
    · simp [List.filter_append, hnolog, Event.isLog]

/-- C2 applied to a run in which the object is already in the bucket. -/
theorem C2_existing_object_is_skipped_witness :
    ¬ ("plain.txt" = "" ∨ "pub.asc" = "") ∧
    (∃ svc w1, getService envObjectExists "b" World.init = (Ctl.ret svc, w1) ∧
      (objectExists envObjectExists svc "b" "k" w1).1 = true) ∧
    ((main envObjectExists 10 "b" "k" "plain.txt" "pub.asc" 10 World.init).1 = Ctl.ret () ∧
      (main envObjectExists 10 "b" "k" "plain.txt" "pub.asc" 10 World.init).2.tmp
        = World.init.tmp ∧
      ∃ evs, (main envObjectExists 10 "b" "k" "plain.txt" "pub.asc" 10 World.init).2.trace
          = World.init.trace ++ evs ∧
        (∀ e ∈ evs, e.isEncrypt = false ∧ e.isPut = false) ∧
        evs.filter Event.isLog = [Event.log (LogLine.skipped "plain.txt" "b" "k")]) :=
  ⟨by decide, ⟨⟨some "eu-west-1"⟩, _, rfl, by decide⟩,
    C2_existing_object_is_skipped envObjectExists 10 "b" "k" "plain.txt" "pub.asc" 10 World.init
      (by decide) ⟨⟨some "eu-west-1"⟩, _, rfl, by decide⟩⟩

/-- C3: in a run of `main` where `objectExists` returned false and that ended
by a normal return (no fatal error), exactly one PUT request was handed to the
HTTP client, and its declared `ContentLength` is the size that `Stat` reported
for the ciphertext file. -/
theorem C3_one_put_with_stat_length (env : Env) (fuel : Nat)
    (bucket key filename pubkey : String) (kbps : Int) (w : World)
    (hex : ∃ svc w1, getService env bucket w = (Ctl.ret svc, w1) ∧
      (objectExists env svc bucket key w1).1 = false)
    (hok : (main env fuel bucket key filename pubkey kbps w).1 = Ctl.ret ()) :
    ∃ tmpfile size url,
      env.tempFile = Except.ok tmpfile ∧ env.stat tmpfile = Except.ok size ∧
      (main env fuel bucket key filename pubkey kbps w).2.puts
        = w.puts ++ [Event.put url size (wrap64 (kbps * 1024))] := by
  obtain ⟨svc, w1, hsvc, hfalse⟩ := hex
  have hp1 : w1.puts = w.puts := by
    have := getService_puts env bucket w
    rw [hsvc] at this
    exact this
  unfold main at hok ⊢
  by_cases hflags : filename = "" ∨ pubkey = ""
  · simp [hflags] at hok
  · simp only [hflags, if_false, hsvc] at hok ⊢
    cases hoe : objectExists env svc bucket key w1 with
    | mk b w2 =>
      have hp2 : w2.puts = w1.puts := by
        have := objectExists_puts env svc bucket key w1
        rw [hoe] at this
        exact this
      rw [hoe] at hfalse
      simp only at hfalse
      subst hfalse
      simp only [hoe] at hok ⊢
      cases henc : encryptFile env fuel filename pubkey w2 with
      | mk c w3 =>
        have hp3 : w3.puts = w2.puts := by
          have := encryptFile_puts env fuel filename pubkey w2
          rw [henc] at this
          exact this
        cases c with
        | exit c => simp [henc] at hok
        | panic m => simp [henc] at hok
        | diverge => simp [henc] at hok
        | ret tmpfile =>
          have htmp := encryptFile_ret env fuel filename pubkey w2 tmpfile (by rw [henc])
          simp only [henc] at hok ⊢
          cases hup : upload env tmpfile svc bucket key kbps w3 with
          | mk c w4 =>
            cases c with
            | exit c => simp [hup] at hok
            | panic m => simp [hup] at hok
            | diverge => simp [hup] at hok
            | ret u =>
              obtain ⟨size, hstat, hputs⟩ :=
                upload_ret env tmpfile svc bucket key kbps w3 (by rw [hup])
              rw [hup] at hputs
              simp only at hputs
              refine ⟨tmpfile, size, env.presign svc.region bucket key, htmp, hstat, ?_⟩
              simp only [hup, World.puts_remove, hputs, hp3, hp2, hp1]

/-- C3 applied to the run in which every outside call succeeds. -/
theorem C3_one_put_with_stat_length_witness :
    (∃ svc w1, getService sampleEnv "b" World.init = (Ctl.ret svc, w1) ∧
      (objectExists sampleEnv svc "b" "k" w1).1 = false) ∧
    (main sampleEnv 10 "b" "k" "plain.txt" "pub.asc" 10 World.init).1 = Ctl.ret () ∧
    ∃ tmpfile size url,
      sampleEnv.tempFile = Except.ok tmpfile ∧ sampleEnv.stat tmpfile = Except.ok size ∧
      (main sampleEnv 10 "b" "k" "plain.txt" "pub.asc" 10 World.init).2.puts
        = World.init.puts ++ [Event.put url size (wrap64 (10 * 1024))] :=
  ⟨⟨⟨some "eu-west-1"⟩, _, rfl, by decide⟩,
    by set_option maxRecDepth 100000 in decide,
    C3_one_put_with_stat_length sampleEnv 10 "b" "k" "plain.txt" "pub.asc" 10 World.init
      ⟨⟨some "eu-west-1"⟩, _, rfl, by decide⟩ (by set_option maxRecDepth 100000 in decide)⟩

/-- The run of `TestSlowReader`: a thousand bytes at 20000 bytes per second
through a 100 byte buffer are paced at 5 ms per read, 50 ms in all, which is
the 0.05 s the test asks for. -/
theorem TestSlowReader_delay :
    ∃ rdr, SlowReader ⟨testData 1000, 0, none⟩ 20000 = some rdr ∧
      (readLoop rdr (List.replicate 11 (zeros 100))).ended = true ∧
      totalSleep (readLoop rdr (List.replicate 11 (zeros 100))).sleeps = some 50000000 := by
  refine ⟨⟨⟨testData 1000, 0, none⟩, 20000, 0, zeros 20000⟩, rfl, ?_⟩
  obtain ⟨-, h2, h3⟩ := readLoop_direct (List.replicate 11 (zeros 100))
    ⟨⟨testData 1000, 0, none⟩, 20000, 0, zeros 20000⟩
    (by
      intro b hb
      rw [List.eq_of_mem_replicate hb, zeros_length]
      show 100 ≤ (zeros 20000).length
      rw [zeros_length]
      omega)
  rw [h2, h3]
  set_option maxRecDepth 100000 in decide

/-- C4, evaluated where it fails. At the rate of the test, 20000 bytes per
second, a file of 150 bytes read through 100 byte buffers is delivered in full
with sleeps of 5 ms, 2 ms and 0 ms, 7 ms in all, less than the 7.5 ms that
150 / 20000 seconds amount to; read through 1 byte buffers, a file of 3 bytes
is delivered with no delay at all. -/
theorem C4_pacing_shortfall :
    (∃ rdr, SlowReader ⟨testData 150, 0, none⟩ 20000 = some rdr ∧
      (readLoop rdr (List.replicate 3 (zeros 100))).ended = true ∧
      (readLoop rdr (List.replicate 3 (zeros 100))).chunks.flatten = testData 150 ∧
      (readLoop rdr (List.replicate 3 (zeros 100))).sleeps
        = [some 5000000, some 2000000, some 0] ∧
      totalSleep (readLoop rdr (List.replicate 3 (zeros 100))).sleeps = some 7000000 ∧
      (7000000 : Int) * 20000 < 150 * 1000000000) ∧
    (∃ rdr, SlowReader ⟨testData 3, 0, none⟩ 20000 = some rdr ∧
      (readLoop rdr (List.replicate 4 (zeros 1))).ended = true ∧
      (readLoop rdr (List.replicate 4 (zeros 1))).chunks.flatten = testData 3 ∧
      totalSleep (readLoop rdr (List.replicate 4 (zeros 1))).sleeps = some 0) := by
  constructor
  · refine ⟨⟨⟨testData 150, 0, none⟩, 20000, 0, zeros 20000⟩, rfl, ?_⟩
    obtain ⟨h1, h2, h3⟩ := readLoop_direct (List.replicate 3 (zeros 100))
      ⟨⟨testData 150, 0, none⟩, 20000, 0, zeros 20000⟩
      (by
        intro b hb
        rw [List.eq_of_mem_replicate hb, zeros_length]
        show 100 ≤ (zeros 20000).length
        rw [zeros_length]
        omega)
    rw [h1, h2, h3]
    set_option maxRecDepth 100000 in decide
  · refine ⟨⟨⟨testData 3, 0, none⟩, 20000, 0, zeros 20000⟩, rfl, ?_⟩
    obtain ⟨h1, h2, h3⟩ := readLoop_direct (List.replicate 4 (zeros 1))
      ⟨⟨testData 3, 0, none⟩, 20000, 0, zeros 20000⟩
      (by
        intro b hb
        rw [List.eq_of_mem_replicate hb, zeros_length]
        show 1 ≤ (zeros 20000).length
        rw [zeros_length]
        omega)
    rw [h1, h2, h3]
    set_option maxRecDepth 100000 in decide

/-- C5: for a positive rate `R`, `SlowReader` gives a reader with a chunk
buffer of `R` bytes, and every `Read` on such a reader, whatever the source and
the caller's buffer (longer than the chunk buffer or not), returns a count of
at most `min N R`, moves the source forward by exactly that count, leaves the
content of the source alone and leaves the next unread bytes of the source in
the first `n` bytes of the caller's buffer; the reader keeps its rate and the
length of its chunk buffer. Consequently a loop that reads a source without
I/O errors through non-empty buffers reaches the end of the stream and has
then delivered exactly the unread bytes of the source, in order. -/
theorem C5_read_delivers_next_bytes (R : Nat) (hR : 0 < R) (f : File) :
    (∃ rdr, SlowReader f (R : Int) = some rdr ∧ rdr.file = f ∧
      rdr.bytesPerSecond = (R : Int) ∧ rdr.localBuffer.length = R) ∧
    (∀ (rdr : SlowReaderType) (buffer : List Byte),
      rdr.bytesPerSecond = (R : Int) → rdr.localBuffer.length = R →
        (rdr.Read buffer).n ≤ min buffer.length R ∧
        (rdr.Read buffer).rdr.file.pos = rdr.file.pos + (rdr.Read buffer).n ∧
        (rdr.Read buffer).rdr.file.data = rdr.file.data ∧
        (rdr.Read buffer).buffer.length = buffer.length ∧
        (rdr.Read buffer).buffer.take (rdr.Read buffer).n
          = (rdr.file.data.drop rdr.file.pos).take (rdr.Read buffer).n ∧
        (rdr.Read buffer).rdr.bytesPerSecond = (R : Int) ∧
        (rdr.Read buffer).rdr.localBuffer.length = R) ∧
    (∀ (rdr : SlowReaderType) (bufs : List (List Byte)),
      rdr.bytesPerSecond = (R : Int) → rdr.localBuffer.length = R →
      rdr.file.errAt = none → (∀ b ∈ bufs, 0 < b.length) →
      rdr.file.data.length - rdr.file.pos < bufs.length →
        (readLoop rdr bufs).ended = true ∧
        (readLoop rdr bufs).chunks.flatten = rdr.file.data.drop rdr.file.pos) := by
  refine ⟨?_, ?_, ?_⟩
  · refine ⟨⟨f, (R : Int), 0, zeros R⟩, ?_, rfl, rfl, zeros_length R⟩
    unfold SlowReader make
    have : ¬ ((R : Int) < 0) := by omega
    simp [this]
  · intro rdr buffer hbps hlen
    obtain ⟨h1, h2, -, h3, h4, -, h6, h7, h8, h9⟩ := SlowReaderType.slowRead_spec rdr buffer
    refine ⟨?_, h3, h4, h6, h7, ?_, ?_⟩
    · rw [hlen] at h2
      exact Nat.le_min.mpr ⟨h1, h2⟩
    · rw [h9, hbps]
    · rw [h8, hlen]
  · intro rdr bufs hrate hlen herr hbufs hfuel
    obtain ⟨hend, hpos⟩ := readLoop_ended bufs rdr (by omega) herr hbufs hfuel
    refine ⟨hend, ?_⟩
    have hj := readLoop_join bufs rdr
    have hdata : (readLoop rdr bufs).rdr.file.data = rdr.file.data := by
      clear hj hpos hend hfuel hbufs herr hlen hrate
      induction bufs generalizing rdr with
      | nil => simp [readLoop]
      | cons buf rest ih =>
        obtain ⟨-, -, -, -, h4, -, -, -, -, -⟩ := SlowReaderType.slowRead_spec rdr buf
        by_cases h0 : (rdr.Read buf).n = 0
        · simp [readLoop, h0, h4]
        · simp only [readLoop, h0, if_false]
          rw [ih, h4]
    rw [hdata, List.drop_eq_nil_of_le hpos, List.append_nil] at hj
    exact hj

/-- C5 applied to a rate of 3 bytes per second and a source of five bytes. -/
theorem C5_read_delivers_next_bytes_witness :
    0 < 3 ∧
    ((∃ rdr, SlowReader ⟨testData 5, 0, none⟩ ((3 : Nat) : Int) = some rdr ∧
        rdr.file = ⟨testData 5, 0, none⟩ ∧
        rdr.bytesPerSecond = ((3 : Nat) : Int) ∧ rdr.localBuffer.length = 3) ∧
      (∀ (rdr : SlowReaderType) (buffer : List Byte),
        rdr.bytesPerSecond = ((3 : Nat) : Int) → rdr.localBuffer.length = 3 →
          (rdr.Read buffer).n ≤ min buffer.length 3 ∧
          (rdr.Read buffer).rdr.file.pos = rdr.file.pos + (rdr.Read buffer).n ∧
          (rdr.Read buffer).rdr.file.data = rdr.file.data ∧
          (rdr.Read buffer).buffer.length = buffer.length ∧
          (rdr.Read buffer).buffer.take (rdr.Read buffer).n
            = (rdr.file.data.drop rdr.file.pos).take (rdr.Read buffer).n ∧
          (rdr.Read buffer).rdr.bytesPerSecond = ((3 : Nat) : Int) ∧
          (rdr.Read buffer).rdr.localBuffer.length = 3) ∧
      (∀ (rdr : SlowReaderType) (bufs : List (List Byte)),
        rdr.bytesPerSecond = ((3 : Nat) : Int) → rdr.localBuffer.length = 3 →
        rdr.file.errAt = none → (∀ b ∈ bufs, 0 < b.length) →
        rdr.file.data.length - rdr.file.pos < bufs.length →
          (readLoop rdr bufs).ended = true ∧
          (readLoop rdr bufs).chunks.flatten = rdr.file.data.drop rdr.file.pos)) :=
  ⟨by decide, C5_read_delivers_next_bytes 3 (by decide) ⟨testData 5, 0, none⟩⟩

/-- C6, refuted at rate 0: `SlowReader` returns a reader, and its first `Read`
on a three byte file returns no error; it delivers nothing, leaves the file
where it was and has computed `0 / 0`, a NaN, as the fraction of a second to
sleep for. -/
theorem C6_zero_rate_is_accepted :
    ∃ rdr, SlowReader ⟨[1, 2, 3], 0, none⟩ 0 = some rdr ∧
      (rdr.Read (zeros 4)).err = none ∧ (rdr.Read (zeros 4)).n = 0 ∧
      (rdr.Read (zeros 4)).rdr.file.pos = 0 ∧
      (rdr.Read (zeros 4)).fraction = F32.nan := by
  refine ⟨⟨⟨[1, 2, 3], 0, none⟩, 0, 0, []⟩, by decide, ?_⟩
  decide

/-- C6 as amended: a negative rate is rejected, by the panic of `make` inside
`SlowReader`, so no reader exists; a rate of zero is not rejected: `SlowReader`
returns a reader with an empty chunk buffer, and every `Read` on it, whatever
the source and the caller's buffer, returns 0 bytes and a nil error, leaves the
source and the buffer as they were, and computes `0 / 0 = NaN` as the fraction. -/
theorem C6_nonpositive_rate (bps : Int) (hbps : bps ≤ 0) (f : File) :
    (bps < 0 → SlowReader f bps = none) ∧
    (bps = 0 → ∃ rdr, SlowReader f bps = some rdr ∧ rdr.localBuffer = [] ∧
      ∀ buffer : List Byte,
        (rdr.Read buffer).n = 0 ∧ (rdr.Read buffer).err = none ∧
        (rdr.Read buffer).rdr.file = f ∧ (rdr.Read buffer).buffer = buffer ∧
        (rdr.Read buffer).fraction = F32.nan ∧ (rdr.Read buffer).sleep = none) := by
  constructor
  · intro hneg
    simp [SlowReader, make, hneg]
  · intro h0
    subst h0
    refine ⟨⟨f, 0, 0, []⟩, by simp [SlowReader, make, zeros], rfl, ?_⟩
    intro buffer
    have hdiv : F32.div (F32.ofInt 0) (F32.ofInt 0) = F32.nan := by decide
    have hsleep : sleepFor F32.nan = none := by decide
    unfold SlowReaderType.Read
    by_cases hb : buffer.length > 0
    · simp only [List.length_nil, hb, if_true]
      simp [File.Read, hdiv, hsleep, copy]
    · have hnil : buffer = [] := by
        cases buffer with
        | nil => rfl
        | cons a l => simp at hb
      subst hnil
      simp [File.Read, hdiv, hsleep]

/-- C6 as amended, applied to the rate 0 and a three byte file. -/
theorem C6_nonpositive_rate_witness :
    (0 : Int) ≤ 0 ∧
    ((0 : Int) < 0 → SlowReader ⟨[1, 2, 3], 0, none⟩ 0 = none) ∧
    ((0 : Int) = 0 → ∃ rdr, SlowReader ⟨[1, 2, 3], 0, none⟩ 0 = some rdr ∧ rdr.localBuffer = [] ∧
      ∀ buffer : List Byte,
        (rdr.Read buffer).n = 0 ∧ (rdr.Read buffer).err = none ∧
        (rdr.Read buffer).rdr.file = ⟨[1, 2, 3], 0, none⟩ ∧ (rdr.Read buffer).buffer = buffer ∧
        (rdr.Read buffer).fraction = F32.nan ∧ (rdr.Read buffer).sleep = none) :=
  ⟨by decide, C6_nonpositive_rate 0 (by decide) ⟨[1, 2, 3], 0, none⟩⟩

/-- C7, evaluated where it fails. For a key file whose first packet is not a
public key (a secret key packet), `entityFromFile` returns normally, and the
entity it returns has a nil primary key and one subkey whose key is nil. -/
theorem C7_entity_without_key_is_returned :
    entityFromFile envNotAKey "pub.asc" World.init =
      (Ctl.ret
        { PrimaryKey := none
          Identities := [("default", { SelfSignature := some {} })]
          Subkeys := [{ PublicKey := none, Sig := some {} }] },
        ⟨[], [Event.openFile "pub.asc", Event.closeFile "pub.asc"]⟩) := by
  decide

/-- C8, refuted at status 403: `upload` returns normally after one PUT and
has logged nothing at all, so there is no line saying that the upload failed. -/
theorem C8_failed_status_is_silent :
    (upload envForbidden "/tmp/uploader123" ⟨some "eu-west-1"⟩ "b" "k" 10 World.init).1
      = Ctl.ret () ∧
    (upload envForbidden "/tmp/uploader123" ⟨some "eu-west-1"⟩ "b" "k" 10 World.init).2.logs
      = [] ∧
    (upload envForbidden "/tmp/uploader123" ⟨some "eu-west-1"⟩ "b" "k" 10 World.init).2.puts
      = [Event.put "https://b.s3.eu-west-1.amazonaws.com/k?X-Amz-Expires=300" 10240 10240] := by
  set_option maxRecDepth 100000 in decide

/-- C8 as amended: when the PUT comes back with a response, `upload` returns
normally having handed exactly one PUT to the HTTP client; it logs the
"uploaded" line exactly when the status is 200, and for every other status it
logs nothing. -/
theorem C8_status_reporting (env : Env) (filename : String) (svc : Svc) (bucket key : String)
    (kbps : Int) (w : World) (file : File) (size status : Int)
    (hopen : env.openFile filename = Except.ok file)
    (hrate : 0 ≤ wrap64 (kbps * 1024))
    (hstat : env.stat filename = Except.ok size)
    (hreq : env.newRequest (env.presign svc.region bucket key) = true)
    (hdo : env.httpDo (env.presign svc.region bucket key) size = Except.ok status) :
    (upload env filename svc bucket key kbps w).1 = Ctl.ret () ∧
    (upload env filename svc bucket key kbps w).2.puts
      = w.puts ++ [Event.put (env.presign svc.region bucket key) size (wrap64 (kbps * 1024))] ∧
    (upload env filename svc bucket key kbps w).2.logs
      = w.logs ++
        (if status = 200 then
          [Event.log (LogLine.uploaded filename bucket key (realKbps size env.elapsed))]
        else []) := by
  have hmk : SlowReader file (wrap64 (kbps * 1024))
      = some ⟨file, wrap64 (kbps * 1024), 0, zeros (wrap64 (kbps * 1024)).toNat⟩ := by
    unfold SlowReader make
    have : ¬ (wrap64 (kbps * 1024) < 0) := by omega
    simp [this]
  unfold upload
  simp only [hopen, hmk, hstat, hreq, if_true, hdo]
  by_cases h200 : status = 200
  · simp [h200, Event.isPut, Event.isLog]
  · simp [h200, Event.isPut, Event.isLog]

/-- C8 as amended, applied to the 403 answer. -/
theorem C8_status_reporting_witness :
    envForbidden.openFile "/tmp/uploader123" = Except.ok ⟨[153, 1, 13], 0, none⟩ ∧
    0 ≤ wrap64 (10 * 1024) ∧
    envForbidden.stat "/tmp/uploader123" = Except.ok 10240 ∧
    envForbidden.newRequest (envForbidden.presign (some "eu-west-1") "b" "k") = true ∧
    envForbidden.httpDo (envForbidden.presign (some "eu-west-1") "b" "k") 10240
      = Except.ok 403 ∧
    ((upload envForbidden "/tmp/uploader123" ⟨some "eu-west-1"⟩ "b" "k" 10 World.init).1
        = Ctl.ret () ∧
      (upload envForbidden "/tmp/uploader123" ⟨some "eu-west-1"⟩ "b" "k" 10 World.init).2.puts
        = World.init.puts ++
          [Event.put (envForbidden.presign (some "eu-west-1") "b" "k") 10240
            (wrap64 (10 * 1024))] ∧
      (upload envForbidden "/tmp/uploader123" ⟨some "eu-west-1"⟩ "b" "k" 10 World.init).2.logs
        = World.init.logs ++
          (if (403 : Int) = 200 then
            [Event.log (LogLine.uploaded "/tmp/uploader123" "b" "k"
              (realKbps 10240 envForbidden.elapsed))]
          else [])) :=
  ⟨rfl, by decide, rfl, rfl, rfl,
    C8_status_reporting envForbidden "/tmp/uploader123" ⟨some "eu-west-1"⟩ "b" "k" 10 World.init
      ⟨[153, 1, 13], 0, none⟩ 10240 403 rfl (by decide) rfl rfl rfl⟩

/-- C9, evaluated where it fails. For a ciphertext of 10000 bytes sent in half
a second, `realKbps` is `9 / 0`, the positive infinity, which is not a finite
number, and this infinity is what the "uploaded" line carries; sent in 1.9
seconds it is `9 / 1 = 9`, which is not the quotient of 10000 / 1024 kilobytes
by 1.9 seconds; and a ciphertext of 100 bytes sent in half a second gives
`0 / 0`, a NaN. -/
theorem C9_realKbps_truncates :
    realKbps 10000 500000000 = F32.inf false ∧
    F32.isFinite (realKbps 10000 500000000) = false ∧
    (upload envFast "/tmp/uploader123" ⟨some "eu-west-1"⟩ "b" "k" 10 World.init).2.logs
      = [Event.log (LogLine.uploaded "/tmp/uploader123" "b" "k" (F32.inf false))] ∧
    F32.toRat? (realKbps 10000 1900000000) = some 9 ∧
    (9 : ℚ) ≠ (10000 / 1024) / (1900000000 / 1000000000) ∧
    realKbps 100 500000000 = F32.nan := by
  have h1 : realKbps 10000 500000000 = F32.inf false := by
    set_option maxRecDepth 100000 in decide
  have h2 : realKbps 10000 1900000000 = F32.fin (9 * 2 ^ 149) := by
    set_option maxRecDepth 100000 in decide
  refine ⟨h1, by rw [h1]; rfl, by set_option maxRecDepth 100000 in decide, ?_, by norm_num,
    by set_option maxRecDepth 100000 in decide⟩
  rw [h2]
  simp only [F32.toRat?, Option.some.injEq]
  norm_num

/-- C10: `encryptFile` on a plaintext that can be read to its end (the empty
plaintext included) leaves its copy loop once the fuel exceeds the length of
the plaintext; the chunks written to the encryption sink are non-empty, at most
1024 bytes long and concatenate to the plaintext; after them the sink is
closed, then the ciphertext file, then the plaintext file, and only then the
path of the ciphertext file is returned. When a read fails with an error other
than end-of-stream the process exits with status 1 and no path is returned. -/
theorem C10_encryptFile_copy_loop (env : Env) (fuel : Nat) (filename pubkey : String)
    (w w1 : World) (data : List Byte) (errAt : Option Nat) (entity : openpgp.Entity)
    (cipherfile : String)
    (hopen : env.openFile filename = Except.ok ⟨data, 0, errAt⟩)
    (hkey : entityFromFile env pubkey (w.emit (Event.openFile filename)) = (Ctl.ret entity, w1))
    (htmp : env.tempFile = Except.ok cipherfile)
    (henc : env.encrypt entity = EncryptInit.ok)
    (hfuel : data.length < fuel) :
    (errAt = none →
      ∃ chunks : List (List Byte),
        (∀ c ∈ chunks, 0 < c.length ∧ c.length ≤ 1024) ∧ chunks.flatten = data ∧
        encryptFile env fuel filename pubkey w =
          (Ctl.ret cipherfile,
            ⟨cipherfile :: w1.tmp,
             w1.trace ++
               [Event.createTemp cipherfile,
                Event.encryptInit cipherfile entity (env.base filename)] ++
               chunks.map Event.sinkWrite ++
               [Event.sinkClose, Event.closeFile cipherfile, Event.closeFile filename]⟩)) ∧
    (∀ e, errAt = some e → e ≤ data.length →
      (encryptFile env fuel filename pubkey w).1 = Ctl.exit 1) := by
  have hz : (zeros 1024).length = 1024 := List.length_replicate _ _
  constructor
  · intro hnone
    subst hnone
    obtain ⟨chunks, hc1, hc2, hc3⟩ := copyLoop_ok fuel ⟨data, 0, none⟩ (zeros 1024)
      ((w1.create cipherfile).emit (Event.encryptInit cipherfile entity (env.base filename)))
      rfl (by rw [hz]; omega) (by simpa using hfuel)
    refine ⟨chunks, ?_, by simpa using hc2, ?_⟩
    · intro c hc
      have := hc1 c hc
      rw [hz] at this
      exact this
    · unfold encryptFile
      simp only [hopen, hkey, htmp, henc, hc3]
      simp [World.emit, World.create]
  · intro e he hel
    subst he
    have := copyLoop_err fuel ⟨data, 0, some e⟩ (zeros 1024)
      ((w1.create cipherfile).emit (Event.encryptInit cipherfile entity (env.base filename)))
      e rfl hel (by rw [hz]; omega) (by simpa using hfuel)
    unfold encryptFile
    simp only [hopen, hkey, htmp, henc]
    cases hloop : copyLoop fuel ⟨data, 0, some e⟩ (zeros 1024)
      ((w1.create cipherfile).emit (Event.encryptInit cipherfile entity (env.base filename))) with
    | mk c w2 =>
      rw [hloop] at this
      simp only at this
      subst this
      rfl

/-- C10 applied to the five byte plaintext of the sample run, and to the same
plaintext on a device that fails from offset 2 on. -/
theorem C10_encryptFile_copy_loop_witness :
    (sampleEnv.openFile "plain.txt" = Except.ok ⟨[112, 108, 97, 105, 110], 0, none⟩ ∧
      entityFromFile sampleEnv "pub.asc" (World.init.emit (Event.openFile "plain.txt"))
        = (Ctl.ret sampleEntity,
            ⟨[], [Event.openFile "plain.txt", Event.openFile "pub.asc",
              Event.closeFile "pub.asc"]⟩) ∧
      sampleEnv.tempFile = Except.ok "/tmp/uploader123" ∧
      sampleEnv.encrypt sampleEntity = EncryptInit.ok ∧
      ([112, 108, 97, 105, 110] : List Byte).length < 6 ∧
      ∃ chunks : List (List Byte),
        (∀ c ∈ chunks, 0 < c.length ∧ c.length ≤ 1024) ∧
        chunks.flatten = [112, 108, 97, 105, 110] ∧
        encryptFile sampleEnv 6 "plain.txt" "pub.asc" World.init =
          (Ctl.ret "/tmp/uploader123",
            ⟨["/tmp/uploader123"],
             [Event.openFile "plain.txt", Event.openFile "pub.asc", Event.closeFile "pub.asc"] ++
               [Event.createTemp "/tmp/uploader123",
                Event.encryptInit "/tmp/uploader123" sampleEntity (sampleEnv.base "plain.txt")] ++
               chunks.map Event.sinkWrite ++
               [Event.sinkClose, Event.closeFile "/tmp/uploader123",
                Event.closeFile "plain.txt"]⟩)) ∧
    (envReadError.openFile "plain.txt" = Except.ok ⟨[112, 108, 97, 105, 110], 0, some 2⟩ ∧
      2 ≤ ([112, 108, 97, 105, 110] : List Byte).length ∧
      (encryptFile envReadError 6 "plain.txt" "pub.asc" World.init).1 = Ctl.exit 1) :=
  ⟨⟨rfl, by decide, rfl, rfl, by decide,
      (C10_encryptFile_copy_loop sampleEnv 6 "plain.txt" "pub.asc" World.init
        ⟨[], [Event.openFile "plain.txt", Event.openFile "pub.asc", Event.closeFile "pub.asc"]⟩
        [112, 108, 97, 105, 110] none sampleEntity "/tmp/uploader123"
        rfl (by decide) rfl rfl (by decide)).1 rfl⟩,
    ⟨rfl, by decide,
      (C10_encryptFile_copy_loop envReadError 6 "plain.txt" "pub.asc" World.init
        ⟨[], [Event.openFile "plain.txt", Event.openFile "pub.asc", Event.closeFile "pub.asc"]⟩
        [112, 108, 97, 105, 110] (some 2) sampleEntity "/tmp/uploader123"
        rfl (by decide) rfl rfl (by decide)).2 2 rfl (by decide)⟩⟩

end S3Uploader
